import Mathlib

namespace Jlg

/-!
Verification of the jupyterlab-git core against its specification.

The development shallowly embeds two source files:

* `src/src/index.ts` — the plugin activation code: the `onEvent` status
  translation (embedded as `translate`) and the repository-path binding
  performed by the restoration join and the `pathChanged` signal
  (embedded as `pbStep` / `pbRun`).

* the `ResetDeleteSingleCommit` React component — its state
  (`CompState`), its callbacks `_onCancelClick`, `_onMessageChange`,
  `_onSubmitClick` and the derived `_defaultMessage`.  The component's
  interactions with its collaborators (repository service, error
  surface, close callback) are recorded as an ordered `Effect` trace.

JavaScript strings are modelled as Lean `String`; the unanchored regex
test `/git:add:files/.test(event)` is modelled as an executable
substring test over the character list.
-/

/-- Executable substring test on character lists: `subList pat l` is
`true` iff `pat` occurs contiguously inside `l`.  This embeds the
JavaScript regex test `/git:add:files/.test(event)`, which is an
unanchored containment test. -/
def subList (pat : List Char) : List Char → Bool
  | [] => pat.isEmpty
  | c :: rest => pat.isPrefixOf (c :: rest) || subList pat rest

/-- String-level wrapper for `subList`. -/
def strContains (pat s : String) : Bool :=
  subList pat.toList s.toList

/-- Embedding of the `onEvent` switch of `src/src/index.ts` (lines
143-188): the pure mapping from an event name to the status text shown
by the status widget.  The JavaScript `switch` is an equality chain on
the eleven exact names with a regex-containment default. -/
def translate (event : String) : String :=
  if event = "git:checkout" then "checking out..."
  else if event = "git:clone" then "cloning repository..."
  else if event = "git:commit:create" then "committing changes..."
  else if event = "git:commit:revert" then "reverting changes..."
  else if event = "git:idle" then "idle"
  else if event = "git:init" then "initializing repository..."
  else if event = "git:pull" then "pulling changes..."
  else if event = "git:pushing" then "pushing changes..."
  else if event = "git:refresh" then "refreshing..."
  else if event = "git:reset:changes" then "resetting changes..."
  else if event = "git:reset:hard" then "discarding changes..."
  else if strContains "git:add:files" event then "adding files..."
  else "working..."

/-- The eleven exact event names of the `onEvent` switch. -/
def gitEventNames : List String :=
  ["git:checkout", "git:clone", "git:commit:create", "git:commit:revert",
   "git:idle", "git:init", "git:pull", "git:pushing", "git:refresh",
   "git:reset:changes", "git:reset:hard"]

theorem subList_iff_infix (pat : List Char) :
    ∀ l : List Char, subList pat l = true ↔ pat <:+: l := by
  intro l
  induction l with
  | nil =>
    simp [subList, List.isEmpty_iff]
  | cons c rest ih =>
    simp only [subList, Bool.or_eq_true, List.isPrefixOf_iff_prefix, ih,
      List.infix_cons_iff]

theorem strContains_iff (pat s : String) :
    strContains pat s = true ↔ pat.toList <:+: s.toList :=
  subList_iff_infix pat.toList s.toList

/-- C2: `translate` is total (it is a Lean function on all of `String`)
and maps each of the eleven exact event names of the §4.1 table to
exactly the listed status text. -/
theorem translate_table :
    translate "git:checkout" = "checking out..."
    ∧ translate "git:clone" = "cloning repository..."
    ∧ translate "git:commit:create" = "committing changes..."
    ∧ translate "git:commit:revert" = "reverting changes..."
    ∧ translate "git:idle" = "idle"
    ∧ translate "git:init" = "initializing repository..."
    ∧ translate "git:pull" = "pulling changes..."
    ∧ translate "git:pushing" = "pushing changes..."
    ∧ translate "git:refresh" = "refreshing..."
    ∧ translate "git:reset:changes" = "resetting changes..."
    ∧ translate "git:reset:hard" = "discarding changes..." := by
  decide

/-- C1 counterexample: the claim says a non-table name yields
"adding files..." exactly when it starts with `git:add:files`, and
"working..." otherwise.  The input `"xgit:add:files"` is not in the
table and does not start with `git:add:files`, so the claim predicts
"working...", but the code's unanchored regex containment test yields
"adding files...". -/
theorem translate_anchored_counterexample :
    translate "xgit:add:files" = "adding files..."
    ∧ translate "xgit:add:files" ≠ "working..."
    ∧ ¬ ("git:add:files".toList <+: "xgit:add:files".toList)
    ∧ "xgit:add:files" ∉ gitEventNames := by
  decide

/-- C1 (amended): for every event name that is not one of the eleven
exact table names, `translate` returns "adding files..." exactly when
the name CONTAINS `git:add:files` as a (contiguous) substring — the
regex `/git:add:files/` is unanchored — and returns "working..."
exactly otherwise. -/
theorem translate_default_cases (e : String) (h : e ∉ gitEventNames) :
    (translate e = "adding files..." ↔ "git:add:files".toList <:+: e.toList)
    ∧ (translate e = "working..." ↔ ¬ "git:add:files".toList <:+: e.toList) := by
  simp only [gitEventNames, List.mem_cons, List.not_mem_nil, or_false, not_or] at h
  obtain ⟨h1, h2, h3, h4, h5, h6, h7, h8, h9, h10, h11⟩ := h
  rw [translate, if_neg h1, if_neg h2, if_neg h3, if_neg h4, if_neg h5,
    if_neg h6, if_neg h7, if_neg h8, if_neg h9, if_neg h10, if_neg h11]
  by_cases hc : strContains "git:add:files" e = true
  · have hinf := (strContains_iff "git:add:files" e).mp hc
    rw [if_pos hc]
    refine ⟨⟨fun _ => hinf, fun _ => rfl⟩, ⟨fun hw => ?_, fun hn => absurd hinf hn⟩⟩
    exact absurd hw (by decide)
  · have hinf := fun hi => hc ((strContains_iff "git:add:files" e).mpr hi)
    rw [if_neg hc]
    refine ⟨⟨fun hw => ?_, fun hi => absurd hi hinf⟩, ⟨fun _ => hinf, fun _ => rfl⟩⟩
    exact absurd hw (by decide)

/-- Witness for `translate_default_cases` at the concrete non-table
name `"git:add:files:extra"`. -/
theorem translate_default_cases_witness :
    translate "git:add:files:extra" = "adding files..."
    ↔ "git:add:files".toList <:+: "git:add:files:extra".toList :=
  (translate_default_cases "git:add:files:extra" (by decide)).1

/-!
Path binding (`src/src/index.ts`, lines 87-96).  Two handlers mutate
`gitExtension.pathRepository`:

* the restoration join `Promise.all([app.restored,
  filebrowser.model.restored]).then(...)` sets it to
  `filebrowser.model.path`, the browser path current at the moment the
  join fires;
* the `pathChanged.connect` handler sets it to `change.newValue` — which
  is by definition also the browser's new current path.

We model the interleaved delivery of these two signals as a list of
events applied in order to a state holding both the browser's current
path and the extension's bound repository path.
-/

/-- An event observed by the path-binding code: a directory change
carrying the browser's new path, or the firing of the startup
restoration join. -/
inductive PBEvent where
  | pathChanged (newValue : String)
  | restore
deriving DecidableEq

/-- State of the path binding: the file browser's current path and the
Git extension's bound repository path. -/
structure PBState where
  browserPath : String
  pathRepository : String
deriving DecidableEq

/-- One step of the path-binding handlers of `activate`: a directory
change updates the browser path and, through the `pathChanged` handler,
the repository path; the restoration join copies the browser's current
path into the repository path. -/
def pbStep (s : PBState) : PBEvent → PBState
  | PBEvent.pathChanged newValue =>
    { browserPath := newValue, pathRepository := newValue }
  | PBEvent.restore =>
    { s with pathRepository := s.browserPath }

/-- Apply a sequence of path-binding events in delivery order. -/
def pbRun (s : PBState) (events : List PBEvent) : PBState :=
  events.foldl pbStep s

/-- The directory-change values carried by an event sequence. -/
def dirChanges (events : List PBEvent) : List String :=
  events.filterMap fun e =>
    match e with
    | PBEvent.pathChanged d => some d
    | PBEvent.restore => none

/-- How many times the restoration join fires in an event sequence. -/
def restoreCount (events : List PBEvent) : Nat :=
  events.count PBEvent.restore

theorem pbRun_no_dirChange (events : List PBEvent) :
    ∀ s : PBState, dirChanges events = [] →
      s.pathRepository = s.browserPath → pbRun s events = s := by
  induction events with
  | nil => intro s _ _; rfl
  | cons e rest ih =>
    intro s hd hrb
    cases e with
    | pathChanged d => simp [dirChanges] at hd
    | restore =>
      have hstep : pbStep s PBEvent.restore = s := by
        cases s
        simp [pbStep]
        exact hrb.symm
      have hd' : dirChanges rest = [] := by
        simpa [dirChanges] using hd
      calc pbRun s (PBEvent.restore :: rest)
          = pbRun (pbStep s PBEvent.restore) rest := rfl
        _ = pbRun s rest := by rw [hstep]
        _ = s := ih s hd' hrb

theorem pbRun_last_dirChange (events : List PBEvent) :
    ∀ (s : PBState) (d : String), (dirChanges events).getLast? = some d →
      (pbRun s events).pathRepository = d := by
  induction events with
  | nil => intro s d hd; simp [dirChanges] at hd
  | cons e rest ih =>
    intro s d hd
    cases e with
    | restore =>
      have hd' : (dirChanges rest).getLast? = some d := by
        simpa [dirChanges] using hd
      exact ih (pbStep s PBEvent.restore) d hd'
    | pathChanged x =>
      have hcons : dirChanges (PBEvent.pathChanged x :: rest)
          = x :: dirChanges rest := by
        simp [dirChanges]
      rcases hrest : dirChanges rest with _ | ⟨y, l⟩
      · have hx : x = d := by
          rw [hcons, hrest] at hd
          exact Option.some.inj hd
        have hfix : pbRun (pbStep s (PBEvent.pathChanged x)) rest
            = pbStep s (PBEvent.pathChanged x) :=
          pbRun_no_dirChange rest _ hrest rfl
        calc (pbRun s (PBEvent.pathChanged x :: rest)).pathRepository
            = (pbRun (pbStep s (PBEvent.pathChanged x)) rest).pathRepository := rfl
          _ = (pbStep s (PBEvent.pathChanged x)).pathRepository := by rw [hfix]
          _ = x := rfl
          _ = d := hx
      · have hd' : (dirChanges rest).getLast? = some d := by
          rw [hcons, hrest, List.getLast?_cons_cons] at hd
          rw [hrest]
          exact hd
        exact ih (pbStep s (PBEvent.pathChanged x)) d hd'

/-- C3: for every interleaving of directory-change notifications with an
at-most-once restoration signal (which copies the browser's current path
into the repository path at the moment it fires), the final bound
repository path equals the last directory-change value: the binder never
regresses to an older value. -/
theorem pathRepository_last_write_wins (events : List PBEvent) (s : PBState)
    (d : String) (_hrc : restoreCount events ≤ 1)
    (hd : (dirChanges events).getLast? = some d) :
    (pbRun s events).pathRepository = d :=
  pbRun_last_dirChange events s d hd

/-- Witness for `pathRepository_last_write_wins`: restore fires between
two live directory changes; the final path is the later change. -/
theorem pathRepository_last_write_wins_witness :
    (pbRun ⟨"/root", "/root"⟩
      [PBEvent.pathChanged "/a", PBEvent.restore,
       PBEvent.pathChanged "/b"]).pathRepository = "/b" :=
  pathRepository_last_write_wins _ _ _ (by decide) (by decide)

/-!
The `ResetDeleteSingleCommit` React component.  Its state is
`{ message, disabled }`; its props carry the action variant
(`'reset' | 'delete'`), the target commit (full id and full message),
the extension model and the `onClose` callback.

The callbacks `_onCancelClick`, `_onMessageChange` and `_onSubmitClick`
are embedded as functions returning the updated component state together
with an ordered trace of the externally observable interactions
(`Effect`): the synchronous `setState({disabled: true})` lockout, the
repository-service call, the `showErrorMessage` invocation and the
`onClose` call.  The outcome of the awaited service promise is an
explicit parameter (`ServiceOutcome`), since the service is an external
collaborator.
-/

/-- The action variant fixed at construction time. -/
inductive Action where
  | reset
  | delete
deriving DecidableEq

/-- Commit data used by the component: the full commit id and the full
commit message (fields `commit` and `commit_msg` of
`Git.ISingleCommitInfo`). -/
structure CommitInfo where
  commit : String
  commit_msg : String
deriving DecidableEq

/-- Component state: the draft commit message and the `disabled`
("busy") flag. -/
structure CompState where
  message : String
  disabled : Bool
deriving DecidableEq

/-- The initial component state set by the constructor:
`{ message: '', disabled: false }`. -/
def initState : CompState :=
  { message := "", disabled := false }

/-- Outcome of the awaited repository-service promise. -/
inductive ServiceOutcome where
  | success
  | failure (err : String)
deriving DecidableEq

/-- Externally observable interactions of the component, in order. -/
inductive Effect where
  | setBusy
  | serviceReset (commitId : String)
  | serviceDelete (message : String) (commitId : String)
  | showError (title : String) (detail : String)
  | close
deriving DecidableEq

/-- Embedding of `_defaultMessage`: the first line of the commit message
(JavaScript `commit_msg.split('\n')[0]`, i.e. the characters before the
first newline) spliced into the revert template. -/
def firstLineList : List Char → List Char
  | [] => []
  | c :: rest => if c = '\n' then [] else c :: firstLineList rest

/-- Embedding of `_defaultMessage` of `ResetDeleteSingleCommit`. -/
def defaultMessage (c : CommitInfo) : String :=
  let summary := String.mk (firstLineList c.commit_msg.toList)
  "Revert \"" ++ summary ++ "\"\n\nThis reverts commit " ++ c.commit

/-- Embedding of `_onCancelClick`: reset the draft message, disable the
inputs, invoke the close callback.  No repository-service interaction
occurs. -/
def onCancelClick (_st : CompState) : CompState × List Effect :=
  ({ message := "", disabled := true }, [Effect.setBusy, Effect.close])

/-- Embedding of `_onMessageChange`: a React `setState` merging in the
new draft message; `disabled` is untouched. -/
def onMessageChange (value : String) (st : CompState) : CompState :=
  { st with message := value }

/-- Embedding of `_onSubmitClick`.  The trace records, in program order:
the synchronous `setState({disabled: true})` lockout, the service call
(`resetToCommit` or `deleteCommit`; for the delete variant the message
is `this.state.message || this._defaultMessage()`, where the empty
string is the only falsy string), the `showErrorMessage` call of the
catch branch when the awaited promise rejects, and the final `onClose`
call reached on success and on failure alike. -/
def onSubmitClick (action : Action) (commit : CommitInfo) (st : CompState)
    (outcome : ServiceOutcome) : CompState × List Effect :=
  let shortCommit := commit.commit.take 7
  let st' : CompState := { st with disabled := true }
  match action with
  | Action.reset =>
    let errs := match outcome with
      | ServiceOutcome.success => []
      | ServiceOutcome.failure err =>
        [Effect.showError "Error Removing Changes"
          ("Failed to discard changes after " ++ shortCommit ++ ": " ++ err)]
    (st', Effect.setBusy :: Effect.serviceReset commit.commit ::
      (errs ++ [Effect.close]))
  | Action.delete =>
    let msg := if st.message = "" then defaultMessage commit else st.message
    let errs := match outcome with
      | ServiceOutcome.success => []
      | ServiceOutcome.failure err =>
        [Effect.showError "Error Reverting Changes"
          ("Failed to revert " ++ shortCommit ++ ": " ++ err)]
    (st', Effect.setBusy :: Effect.serviceDelete msg commit.commit ::
      (errs ++ [Effect.close]))

/-- `needle` occurs contiguously inside `hay`. -/
def StrSub (needle hay : String) : Prop :=
  needle.toList <:+: hay.toList

/-- An operation on a live `ResetDeleteSingleCommit` instance. -/
inductive Op where
  | submit (outcome : ServiceOutcome)
  | cancel
  | edit (value : String)
deriving DecidableEq

/-- The component-state part of one operation. -/
def applyOp (a : Action) (c : CommitInfo) (op : Op) (st : CompState) :
    CompState :=
  match op with
  | Op.submit o => (onSubmitClick a c st o).1
  | Op.cancel => (onCancelClick st).1
  | Op.edit v => onMessageChange v st

theorem firstLineList_eq_takeWhile (l : List Char) :
    firstLineList l = l.takeWhile fun c => c != '\n' := by
  induction l with
  | nil => rfl
  | cons c rest ih =>
    by_cases h : c = '\n'
    · simp [firstLineList, h, List.takeWhile_cons]
    · simp [firstLineList, h, List.takeWhile_cons, ih]

/-- C5: the derived default delete-message is the revert template over
the first line of the target commit's message (the characters before
the first newline) and its full id, and at the concrete commit of the
claim it produces exactly the expected string. -/
theorem defaultMessage_spec (F M : String) :
    defaultMessage ⟨F, M⟩
      = "Revert \"" ++ String.mk (M.toList.takeWhile fun c => c != '\n')
        ++ "\"\n\nThis reverts commit " ++ F
    ∧ defaultMessage ⟨"abcdef1234567890", "Fix bug\n\nDetails here"⟩
      = "Revert \"Fix bug\"\n\nThis reverts commit abcdef1234567890" := by
  constructor
  · show "Revert \"" ++ String.mk (firstLineList M.toList)
      ++ "\"\n\nThis reverts commit " ++ F = _
    rw [firstLineList_eq_takeWhile]
  · decide

/-- C4: for every variant and service outcome, the trace of `submit()`
invokes the close callback exactly once (and, the embedding being a
total function, no exception escapes to the caller); when the service
call rejects, the error surface is invoked — with title
"Error Removing Changes" for reset and "Error Reverting Changes" for
delete, and a detail containing the 7-character prefix of the target
commit id and the underlying failure — and the close callback still
runs afterwards. -/
theorem submit_closes_once_and_reports (a : Action) (c : CommitInfo)
    (st : CompState) (o : ServiceOutcome) :
    (∃ pre : List Effect,
      (onSubmitClick a c st o).2 = pre ++ [Effect.close]
      ∧ Effect.close ∉ pre)
    ∧ (∀ err : String, o = ServiceOutcome.failure err →
        ∃ (pre : List Effect) (detail : String),
          (onSubmitClick a c st o).2
            = pre ++ [Effect.showError
                (match a with
                 | Action.reset => "Error Removing Changes"
                 | Action.delete => "Error Reverting Changes") detail,
                Effect.close]
          ∧ StrSub (c.commit.take 7) detail ∧ StrSub err detail) := by
  cases a <;> cases o
  case reset.success =>
    refine ⟨⟨[Effect.setBusy, Effect.serviceReset c.commit], rfl, by simp⟩, ?_⟩
    intro err h
    exact absurd h (by simp)
  case reset.failure err =>
    constructor
    · exact ⟨[Effect.setBusy, Effect.serviceReset c.commit,
        Effect.showError "Error Removing Changes"
          ("Failed to discard changes after " ++ c.commit.take 7 ++ ": " ++ err)],
        rfl, by simp⟩
    · intro e he
      injection he with h1
      subst h1
      refine ⟨[Effect.setBusy, Effect.serviceReset c.commit],
        "Failed to discard changes after " ++ c.commit.take 7 ++ ": " ++ err,
        rfl, ?_, ?_⟩
      · exact ⟨"Failed to discard changes after ".toList, (": " ++ err).toList,
          by simp [String.data_append]⟩
      · exact ⟨("Failed to discard changes after " ++ c.commit.take 7 ++ ": ").toList,
          [], by simp [String.data_append]⟩
  case delete.success =>
    refine ⟨⟨[Effect.setBusy,
      Effect.serviceDelete
        (if st.message = "" then defaultMessage c else st.message) c.commit],
      rfl, by simp⟩, ?_⟩
    intro err h
    exact absurd h (by simp)
  case delete.failure err =>
    constructor
    · exact ⟨[Effect.setBusy,
        Effect.serviceDelete
          (if st.message = "" then defaultMessage c else st.message) c.commit,
        Effect.showError "Error Reverting Changes"
          ("Failed to revert " ++ c.commit.take 7 ++ ": " ++ err)],
        rfl, by simp⟩
    · intro e he
      injection he with h1
      subst h1
      refine ⟨[Effect.setBusy,
        Effect.serviceDelete
          (if st.message = "" then defaultMessage c else st.message) c.commit],
        "Failed to revert " ++ c.commit.take 7 ++ ": " ++ err,
        rfl, ?_, ?_⟩
      · exact ⟨"Failed to revert ".toList, (": " ++ err).toList,
          by simp [String.data_append]⟩
      · exact ⟨("Failed to revert " ++ c.commit.take 7 ++ ": ").toList,
          [], by simp [String.data_append]⟩

/-- Witness for `submit_closes_once_and_reports`: a rejected reset on a
concrete commit produces the "Error Removing Changes" report followed by
the close. -/
theorem submit_closes_once_and_reports_witness :
    ∃ (pre : List Effect) (detail : String),
      (onSubmitClick Action.reset ⟨"abcdef1234567890", "m"⟩ ⟨"", false⟩
        (ServiceOutcome.failure "boom")).2
      = pre ++ [Effect.showError "Error Removing Changes" detail, Effect.close]
      ∧ StrSub ((⟨"abcdef1234567890", "m"⟩ : CommitInfo).commit.take 7) detail
      ∧ StrSub "boom" detail :=
  (submit_closes_once_and_reports Action.reset ⟨"abcdef1234567890", "m"⟩
    ⟨"", false⟩ (ServiceOutcome.failure "boom")).2 "boom" rfl

/-- C6: the delete variant passes a non-empty draft message verbatim to
`deleteCommit` (the default derivation is not consulted), and uses the
derived default message exactly when the draft is empty. -/
theorem delete_message_verbatim (c : CommitInfo) (st : CompState)
    (o : ServiceOutcome) :
    (st.message ≠ "" → ∃ rest : List Effect,
      (onSubmitClick Action.delete c st o).2
        = Effect.setBusy :: Effect.serviceDelete st.message c.commit :: rest)
    ∧ (st.message = "" → ∃ rest : List Effect,
      (onSubmitClick Action.delete c st o).2
        = Effect.setBusy
          :: Effect.serviceDelete (defaultMessage c) c.commit :: rest) := by
  constructor
  · intro h
    cases o with
    | success => exact ⟨[Effect.close], by simp [onSubmitClick, h]⟩
    | failure err =>
      exact ⟨[Effect.showError "Error Reverting Changes"
        ("Failed to revert " ++ c.commit.take 7 ++ ": " ++ err), Effect.close],
        by simp [onSubmitClick, h]⟩
  · intro h
    cases o with
    | success => exact ⟨[Effect.close], by simp [onSubmitClick, h]⟩
    | failure err =>
      exact ⟨[Effect.showError "Error Reverting Changes"
        ("Failed to revert " ++ c.commit.take 7 ++ ": " ++ err), Effect.close],
        by simp [onSubmitClick, h]⟩

/-- Witness for `delete_message_verbatim`: a concrete non-empty draft is
forwarded verbatim. -/
theorem delete_message_verbatim_witness :
    ∃ rest : List Effect,
      (onSubmitClick Action.delete ⟨"abc123", "m"⟩ ⟨"custom", false⟩
        ServiceOutcome.success).2
      = Effect.setBusy :: Effect.serviceDelete "custom" "abc123" :: rest :=
  (delete_message_verbatim ⟨"abc123", "m"⟩ ⟨"custom", false⟩
    ServiceOutcome.success).1 (by decide)

/-- C7: `cancel()` disables the surface, invokes the close callback, and
never calls `resetToCommit` or `deleteCommit`, for every component state
(hence for both variants — the cancel handler does not consult the
variant at all). -/
theorem cancel_no_service_and_closes (st : CompState) :
    (onCancelClick st).1.disabled = true
    ∧ Effect.close ∈ (onCancelClick st).2
    ∧ ∀ m i : String,
        Effect.serviceReset i ∉ (onCancelClick st).2
        ∧ Effect.serviceDelete m i ∉ (onCancelClick st).2 := by
  refine ⟨rfl, by simp [onCancelClick], fun m i => ⟨?_, ?_⟩⟩
  · simp [onCancelClick]
  · simp [onCancelClick]

/-- C8: the busy (`disabled`) flag is monotone: the constructor starts
it at `false`, every operation either leaves it unchanged or sets it to
`true`, and along any sequence of operations it never returns to `false`
once `true`. -/
theorem busy_monotone (a : Action) (c : CommitInfo) :
    initState.disabled = false
    ∧ (∀ (op : Op) (st : CompState),
        (applyOp a c op st).disabled = st.disabled
        ∨ (applyOp a c op st).disabled = true)
    ∧ (∀ (ops : List Op) (st : CompState), st.disabled = true →
        (ops.foldl (fun s op => applyOp a c op s) st).disabled = true) := by
  refine ⟨rfl, ?_, ?_⟩
  · intro op st
    cases op with
    | submit o => exact Or.inr (by cases a <;> rfl)
    | cancel => exact Or.inr rfl
    | edit v => exact Or.inl rfl
  · intro ops
    induction ops with
    | nil => intro st h; exact h
    | cons op rest ih =>
      intro st h
      have hstep : (applyOp a c op st).disabled = true := by
        cases op with
        | submit o => cases a <;> rfl
        | cancel => rfl
        | edit v => exact h
      exact ih _ hstep

/-- Witness for `busy_monotone`: once disabled, a further cancel leaves
the flag set. -/
theorem busy_monotone_witness :
    ([Op.cancel].foldl
      (fun s op => applyOp Action.reset ⟨"c", "m"⟩ op s)
      ⟨"", true⟩).disabled = true :=
  (busy_monotone Action.reset ⟨"c", "m"⟩).2.2 [Op.cancel] ⟨"", true⟩ rfl

/-- C9: in every `submit()` trace the busy lockout is the first step and
the repository-service call (reset or delete, on the target commit id)
comes strictly after it — the service is never invoked while the flag is
still unset. -/
theorem busy_set_before_service (a : Action) (c : CommitInfo)
    (st : CompState) (o : ServiceOutcome) :
    ∃ (svc : Effect) (rest : List Effect),
      (onSubmitClick a c st o).2 = Effect.setBusy :: svc :: rest
      ∧ (svc = Effect.serviceReset c.commit
         ∨ ∃ m : String, svc = Effect.serviceDelete m c.commit) := by
  cases a with
  | reset => exact ⟨_, _, rfl, Or.inl rfl⟩
  | delete => exact ⟨_, _, rfl, Or.inr ⟨_, rfl⟩⟩

/-- C10: `cancel()` resets the draft message to the empty string in the
same update that disables the inputs; the resulting component state is
exactly `{ message := "", disabled := true }` (no other state exists to
be modified), and the only external interaction besides the lockout is
the close callback. -/
theorem cancel_resets_draft (st : CompState) :
    onCancelClick st
      = ({ message := "", disabled := true }, [Effect.setBusy, Effect.close]) :=
  rfl

end Jlg
